import Mathlib

/-!
Verification development for the generation-session orchestrator of the
`local_llm_edge_pi5` repository.

The C++ core (`src/cpp/model/llm_model.{h,cpp}`,
`src/cpp/inference/inference_engine.cpp`, `src/cpp/bindings/node_binding.cpp`)
is shallowly embedded here:

* `float` values become `ℚ`; `expf` is abstracted as an explicit function
  parameter `fexp : ℚ → ℚ` (a concrete rational stand-in `qexp` is used for
  closed evaluations); `-INFINITY` entries of a logit buffer become `⊥` in
  `WithBot ℚ`, with `expf (-INFINITY - m) = 0` and `max`/comparisons treating
  `⊥` as smaller than every finite value, matching IEEE behaviour for the
  operations the code performs.
* The one fresh `std::mt19937` draw `dist(gen)` made per sampling call is an
  explicit parameter `r : ℚ`.
* The llama.cpp backend is an oracle record `Backend` (tokenisation results,
  context-creation success, per-step logits, per-batch decode success,
  detokenised piece text and piece length, per-step random draw).
* `llama_context* ctx_` is modelled by a boolean "a context is live" flag in
  `ModelSt`; wall-clock metric fields (durations, tokens/second) are omitted
  from the `Metrics` record since real time is outside the embedding.
* The streaming callback sequence is modelled as the list of emitted
  `StreamEvent`s, in emission order.
-/

namespace LocalLLM

/-- Model/sampling configuration, from `struct ModelConfig` in
`src/cpp/model/llm_model.h` (the fields the embedded functions consume,
with the header's default values). -/
structure ModelConfig where
  model_path : String
  context_size : ℤ := 2048
  batch_size : ℤ := 512
  threads : ℤ := 4
  gpu_layers : ℤ := 0
  temperature : ℚ := 7/10
  top_p : ℚ := 9/10
  top_k : ℤ := 40
  repeat_penalty : ℚ := 11/10
  seed : ℤ := 42
deriving DecidableEq

/-- State of one `LLMModel` instance: whether `model_` is non-null, whether
`ctx_` is non-null (a live execution context), the `recent_tokens_` ring
buffer, and the stored `config_`. -/
structure ModelSt where
  loaded : Bool
  ctx : Bool
  recent : List ℕ
  cfg : ModelConfig
deriving DecidableEq

/-- Append a token id to `recent_tokens_`, evicting the oldest entry when the
size exceeds 128 (`llm_model.cpp` lines 449-453 and 460-463:
`push_back` followed by `erase(begin)` when `size() > 128`). -/
def pushRecent (recent : List ℕ) (t : ℕ) : List ℕ :=
  let r := recent ++ [t]
  if 128 < r.length then r.drop 1 else r

/-- Temperature stage of `LLMModel::sample_next_token` (lines 371-378):
every logit is divided by the temperature only when `temperature > 0`. -/
def postTemp (cfg : ModelConfig) (logits : List ℚ) : List ℚ :=
  if 0 < cfg.temperature then logits.map (fun x => x / cfg.temperature) else logits

/-- Ordering used to model the `std::partial_sort` on `(logit, index)` pairs
with comparator `a.first > b.first` (lines 405-411): descending by value.
`std::partial_sort` leaves the relative order of equal values unspecified; the
embedding fixes ties by ascending original index, which selects top-`k`
entries with the same multiset of values as any run of the C++ code. -/
def pairOrder (a b : ℚ × ℕ) : Prop :=
  b.1 < a.1 ∨ (a.1 = b.1 ∧ a.2 ≤ b.2)

instance : DecidableRel pairOrder := fun a b => by
  unfold pairOrder; infer_instance

instance : IsTotal (ℚ × ℕ) pairOrder where
  total a b := by
    rcases lt_trichotomy a.1 b.1 with h | h | h
    · exact Or.inr (Or.inl h)
    · rcases Nat.le_total a.2 b.2 with h2 | h2
      · exact Or.inl (Or.inr ⟨h, h2⟩)
      · exact Or.inr (Or.inr ⟨h.symm, h2⟩)
    · exact Or.inl (Or.inl h)

instance : IsTrans (ℚ × ℕ) pairOrder where
  trans a b c hab hbc := by
    rcases hab with h1 | ⟨h1, h1'⟩ <;> rcases hbc with h2 | ⟨h2, h2'⟩
    · exact Or.inl (h2.trans h1)
    · exact Or.inl (h2 ▸ h1)
    · exact Or.inl (h1 ▸ h2)
    · exact Or.inr ⟨h1.trans h2, h1'.trans h2'⟩

/-- The `(logit, index)` pair list built in lines 400-403. -/
def idxPairs (v : List ℚ) : List (ℚ × ℕ) :=
  v.enum.map (fun p => (p.2, p.1))

/-- Indices surviving the top-`k` selection: the index components of the first
`k` pairs of the value-descending sort (model of
`std::partial_sort` + `resize(top_k)`, lines 405-414). -/
def keptIdx (k : ℕ) (v : List ℚ) : List ℕ :=
  ((idxPairs v).insertionSort pairOrder).take k |>.map Prod.snd

/-- Lines 416-420: every logit is set to `-INFINITY` (`⊥`), then the top-`k`
entries are restored at their original indices. -/
def topKFilter (k : ℕ) (v : List ℚ) : List (WithBot ℚ) :=
  v.enum.map (fun p => if p.1 ∈ keptIdx k v then (p.2 : WithBot ℚ) else ⊥)

/-- Top-`k` stage (lines 397-421): applied only when `0 < top_k < vocab`. -/
def maskTopK (cfg : ModelConfig) (scaled : List ℚ) : List (WithBot ℚ) :=
  if 0 < cfg.top_k ∧ cfg.top_k < (scaled.length : ℤ) then
    topKFilter cfg.top_k.toNat scaled
  else
    scaled.map (fun x => (x : WithBot ℚ))

/-- Model of `*std::max_element` over a float buffer that may contain `-INFINITY`. -/
def listMax (l : List (WithBot ℚ)) : WithBot ℚ := l.foldl max ⊥

/-- Model of `expf (x - max)` for one buffer entry: `expf (-INFINITY) = 0`. -/
def expAt (fexp : ℚ → ℚ) (m : ℚ) (x : WithBot ℚ) : ℚ :=
  if x = ⊥ then 0 else fexp (x.unbot' 0 - m)

/-- Softmax stage (lines 423-437): numerically stable softmax; the division
by the total is performed only when the total is positive. -/
def softmaxProbs (fexp : ℚ → ℚ) (masked : List (WithBot ℚ)) : List ℚ :=
  let m := (listMax masked).unbot' 0
  let raw := masked.map (expAt fexp m)
  let s := raw.sum
  if 0 < s then raw.map (fun p => p / s) else raw

/-- Cumulative-distribution walk (lines 445-456): returns the first index at
which the running sum reaches the draw `r`, if any. -/
def cumFind (r : ℚ) : ℚ → ℕ → List ℚ → Option ℕ
  | _, _, [] => none
  | c, i, p :: ps => if r ≤ c + p then some i else cumFind r (c + p) (i + 1) ps

/-- Helper for `std::max_element`: carries the best (index, value) pair and
replaces it only on a strictly greater value, so the first maximum wins. -/
def argmaxAux : List (WithBot ℚ) → ℕ → ℕ × WithBot ℚ → ℕ × WithBot ℚ
  | [], _, b => b
  | x :: xs, i, b => argmaxAux xs (i + 1) (if b.2 < x then (i, x) else b)

/-- Model of `std::max_element(begin, end) - begin` (line 459): index of the first
greatest entry (0 on an empty buffer, where `max_element` returns `end`). -/
def argmaxFirst (l : List (WithBot ℚ)) : ℕ :=
  match l with
  | [] => 0
  | x :: xs => (argmaxAux xs 1 (0, x)).1

/-- Model of `LLMModel::sample_next_token` (`llm_model.cpp` lines 368-465).
Returns the chosen token id and the updated `recent_tokens_` buffer.
The repeat-penalty block (lines 382-395) is commented out in the source and
therefore absent here. `fexp` abstracts `expf` and `r` is the fresh
uniform draw of lines 440-443. An empty logits vector returns token id 0
immediately (line 369). -/
def sample_next_token (cfg : ModelConfig) (fexp : ℚ → ℚ) (r : ℚ)
    (logits : List ℚ) (recent : List ℕ) : ℕ × List ℕ :=
  if logits = [] then (0, recent)
  else
    let scaled := postTemp cfg logits
    let masked := maskTopK cfg scaled
    let probs := softmaxProbs fexp masked
    match cumFind r 0 0 probs with
    | some i => (i, pushRecent recent i)
    | none =>
      let i := argmaxFirst masked
      (i, pushRecent recent i)

/-- Spec-side greedy choice, from the spec's words "argmax(logits), i.e. the
index of the highest raw logit" (first index on ties). -/
def argmaxLogits (l : List ℚ) : ℕ :=
  argmaxFirst (l.map (fun x => (x : WithBot ℚ)))

/-- Oracle record for the llama.cpp backend calls the orchestrator makes.
Per-step oracles are indexed by the generation-loop iteration count. -/
structure Backend where
  load_ok : String → Bool          -- llama_model_load_from_file success per path
  tokenize : String → List ℤ       -- LLMModel::tokenize result (empty = failure)
  add_bos : Bool                   -- llama_vocab_get_add_bos
  bos : ℤ                          -- llama_vocab_bos
  eos : ℕ                          -- llama_vocab_eos
  ctx_ok : Bool                    -- llama_init_from_model success
  logits_at : ℕ → Option (List ℚ)  -- llama_get_logits at loop step i (none = nullptr)
  decode_prompt_ok : List ℤ → Bool -- llama_decode on one prompt chunk
  decode_tok_ok : ℕ → Bool         -- llama_decode of the generated token at step i
  piece_len : ℕ → ℤ                -- llama_token_to_piece return value n_piece
  piece_text : ℕ → String          -- the piece bytes when n_piece > 0
  draw : ℕ → ℚ                     -- the fresh uniform draw at sampling step i
  fexp : ℚ → ℚ                     -- expf

/-- Discrete fields of the `[DONE]` metrics JSON built in
`generate_stream` lines 202-220 (wall-clock fields omitted: real time is
outside the embedding). `eos_hit` is `tokens_generated < max_tokens`,
exactly as computed on line 219. -/
structure Metrics where
  input_tokens : ℕ
  output_tokens : ℕ
  context_used : ℕ
  context_size : ℤ
  max_tokens_requested : ℕ
  eos_hit : Bool
deriving DecidableEq

def mkMetrics (cfg : ModelConfig) (inLen outLen maxT : ℕ) : Metrics :=
  { input_tokens := inLen
    output_tokens := outLen
    context_used := inLen + outLen
    context_size := cfg.context_size
    max_tokens_requested := maxT
    eos_hit := decide (outLen < maxT) }

/-- One payload passed to the streaming callback: a token-text chunk, the
`[DONE]` metrics message, or one of the error strings. -/
inductive StreamEvent where
  | text (s : String)
  | done (m : Metrics)
  | err (s : String)
deriving DecidableEq

def StreamEvent.isText : StreamEvent → Bool
  | .text _ => true
  | _ => false

/-- A terminal event: the `[DONE]` metrics message or an error message (both
end the stream; token-text events never do). -/
def StreamEvent.isTerminal : StreamEvent → Bool
  | .text _ => false
  | _ => true

/-- The chunks of size `bs` that the prompt-ingest loop
(`for (i = 0; i < n; i += batch_size) ... min(n - i, batch_size)`) feeds to
`llama_decode`; `fuel` bounds the recursion (`input.length` suffices). -/
def promptChunks (bs : ℕ) : ℕ → List ℤ → List (List ℤ)
  | 0, _ => []
  | _, [] => []
  | fuel + 1, l => l.take bs :: promptChunks bs fuel (l.drop bs)

/-- All prompt chunks decode successfully (lines 120-129 / 280-288). -/
def decodeChunksOk (be : Backend) (bs : ℤ) (input : List ℤ) : Bool :=
  (promptChunks bs.toNat input.length input).all be.decode_prompt_ok

/-- Result of one streaming generation call: the callback payloads in
emission order, the final model state, the counted generated tokens
(`tokens_generated` increments), and the tokens fed back to `llama_decode`
to extend the KV-cache. -/
structure StreamResult where
  events : List StreamEvent
  st : ModelSt
  genTokens : List ℕ
  fed : List ℕ

/-- Token-generation loop of `LLMModel::generate_stream` (lines 134-224):
read logits, sample, stop on EOS, count the token, emit its text only when
`n_piece > 0`, feed it back, and finally emit the `[DONE]` metrics.
`fuel` is `max_tokens - i`. Every exit path frees the context. -/
def genLoop (be : Backend) (maxT inLen : ℕ) :
    ℕ → ℕ → ModelSt → List StreamEvent → List ℕ → List ℕ → StreamResult
  | 0, _, st, evs, gen, fed =>
    ⟨evs ++ [.done (mkMetrics st.cfg inLen gen.length maxT)],
      { st with ctx := false }, gen, fed⟩
  | fuel + 1, i, st, evs, gen, fed =>
    match be.logits_at i with
    | none => ⟨evs ++ [.err "Failed to get logits"], { st with ctx := false }, gen, fed⟩
    | some logits =>
      let s := sample_next_token st.cfg be.fexp (be.draw i) logits st.recent
      let st2 := { st with recent := s.2 }
      if s.1 = be.eos then
        ⟨evs ++ [.done (mkMetrics st2.cfg inLen gen.length maxT)],
          { st2 with ctx := false }, gen, fed⟩
      else
        let gen2 := gen ++ [s.1]
        let evs2 := if 0 < be.piece_len s.1 then evs ++ [.text (be.piece_text s.1)] else evs
        let fed2 := fed ++ [s.1]
        if be.decode_tok_ok i then
          genLoop be maxT inLen fuel (i + 1) st2 evs2 gen2 fed2
        else
          ⟨evs2 ++ [.err "Failed to decode generated token"],
            { st2 with ctx := false }, gen2, fed2⟩

/-- Model of `LLMModel::generate_stream` (lines 74-234): not-loaded check, free any
pre-existing context, create a fresh context, tokenize, optional BOS, chunked
prompt decode, then the token-generation loop. The `recent_tokens_.clear()`
call of line 87 is commented out in the source and therefore absent here. -/
def llm_generate_stream (be : Backend) (st : ModelSt) (prompt : String)
    (maxT : ℕ) : StreamResult :=
  if ¬ st.loaded then ⟨[.err "Model not loaded"], st, [], []⟩
  else
    let st1 := { st with ctx := false }
    if ¬ be.ctx_ok then ⟨[.err "Failed to create context"], st1, [], []⟩
    else
      let st2 := { st1 with ctx := true }
      let toks := be.tokenize prompt
      if toks = [] then
        ⟨[.err "Tokenization failed"], { st2 with ctx := false }, [], []⟩
      else
        let input := if be.add_bos then be.bos :: toks else toks
        if decodeChunksOk be st2.cfg.batch_size input then
          genLoop be maxT input.length maxT 0 st2 [] [] []
        else
          ⟨[.err "Failed to decode input tokens"], { st2 with ctx := false }, [], []⟩

/-- Result of the synchronous path `LLMModel::generate_internal`. -/
structure InternalResult where
  output : String
  st : ModelSt
  genTokens : List ℕ

/-- Model of `LLMModel::detokenize` (lines 354-366): concatenates the pieces of the
tokens whose `n_piece` is positive. -/
def detokenizeModel (be : Backend) (tokens : List ℕ) : String :=
  (tokens.filterMap fun t =>
    if 0 < be.piece_len t then some (be.piece_text t) else none).foldl (· ++ ·) ""

/-- How the token-generation loop of `generate_internal` exited. -/
inductive LoopExit where
  | ok | logitsFail | decodeFail
deriving DecidableEq

/-- Token-generation loop of `generate_internal` (lines 291-311): like the
streaming loop without callbacks, accumulating `output_tokens`. The two
failure exits free the context at their return site (lines 294, 308). -/
def internalLoop (be : Backend) :
    ℕ → ℕ → ModelSt → List ℕ → LoopExit × ModelSt × List ℕ
  | 0, _, st, out => (.ok, st, out)
  | fuel + 1, i, st, out =>
    match be.logits_at i with
    | none => (.logitsFail, { st with ctx := false }, out)
    | some logits =>
      let s := sample_next_token st.cfg be.fexp (be.draw i) logits st.recent
      let st2 := { st with recent := s.2 }
      if s.1 = be.eos then (.ok, st2, out)
      else
        let out2 := out ++ [s.1]
        if be.decode_tok_ok i then internalLoop be fuel (i + 1) st2 out2
        else (.decodeFail, { st2 with ctx := false }, out2)

/-- Model of `LLMModel::generate_internal` (lines 236-335), the synchronous `generate`
path. Note: on an empty tokenization result the function returns
"Tokenization failed" at line 266 WITHOUT freeing the just-created context
(unlike the streaming path, line 111) — this is reproduced faithfully. -/
def generate_internal (be : Backend) (st : ModelSt) (prompt : String)
    (maxT : ℕ) : InternalResult :=
  if ¬ st.loaded then ⟨"Model not loaded", st, []⟩
  else
    let st1 := { st with ctx := false }
    if ¬ be.ctx_ok then ⟨"Failed to create context", st1, []⟩
    else
      let st2 := { st1 with ctx := true }
      let toks := be.tokenize prompt
      if toks = [] then ⟨"Tokenization failed", st2, []⟩
      else
        let input := if be.add_bos then be.bos :: toks else toks
        if decodeChunksOk be st2.cfg.batch_size input then
          match internalLoop be maxT 0 st2 [] with
          | (.ok, st3, out) =>
            ⟨detokenizeModel be out, { st3 with ctx := false }, out⟩
          | (.logitsFail, st3, out) => ⟨"Failed to get logits", st3, out⟩
          | (.decodeFail, st3, out) => ⟨"Failed to decode generated token", st3, out⟩
        else
          ⟨"Failed to decode input tokens", { st2 with ctx := false }, []⟩

/-! Engine layer (`src/cpp/inference/inference_engine.cpp`). -/

/-- State of one `InferenceEngine`: the owned `LLMModel` (null before the
first `initialize` call). -/
structure EngineSt where
  model : Option ModelSt
deriving DecidableEq

/-- Model of `LLMModel::initialize` (`llm_model.cpp` lines 41-68) on a fresh
`LLMModel`: stores the config, loads the model file, returns whether
`model_` is non-null; no exception escapes, failure is the `false` return. -/
def modelInit (be : Backend) (cfg : ModelConfig) : ModelSt × Bool :=
  let ld := be.load_ok cfg.model_path
  ({ loaded := ld, ctx := false, recent := [], cfg := cfg }, ld)

/-- Model of `InferenceEngine::initialize` (lines 23-37): replaces the owned model
with a freshly constructed one, initialises it, returns its success flag. -/
def engineInit (be : Backend) (_e : EngineSt) (cfg : ModelConfig) :
    EngineSt × Bool :=
  let p := modelInit be cfg
  (⟨some p.1⟩, p.2)

/-- Model of `InferenceEngine::is_ready` (lines 76-79): `model_ && model_->is_loaded()`. -/
def engineIsReady (e : EngineSt) : Bool :=
  match e.model with
  | none => false
  | some m => m.loaded

/-- Model of `InferenceEngine::generate_text` (lines 39-47): returns the error string
(no exception) when no loaded model is present, else runs the synchronous
generation. -/
def engine_generate_text (be : Backend) (e : EngineSt) (prompt : String)
    (maxT : ℕ) : String × EngineSt :=
  match e.model with
  | none => ("Error: Model not loaded", e)
  | some m =>
    if m.loaded then
      let r := generate_internal be m prompt maxT
      (r.output, ⟨some r.st⟩)
    else ("Error: Model not loaded", e)

/-- The payload sequence the model layer hands to the engine's delivery
wrapper during `generate_text_stream` (lines 59-73). The "Error: Model not
loaded" message is delivered directly by the worker (line 63), NOT through
the flag-checking wrapper. -/
def engine_stream_events (be : Backend) (e : EngineSt) (prompt : String)
    (maxT : ℕ) : List StreamEvent :=
  match e.model with
  | none => [.err "Error: Model not loaded"]
  | some m =>
    if m.loaded then (llm_generate_stream be m prompt maxT).events
    else [.err "Error: Model not loaded"]

/-- The delivery wrapper of lines 67-72: each payload is delivered only if
`stop_generation_` is still false at that moment. `stopIdx` is the number of
payloads delivered before `stop()` is observed (the flag, once set, stays set
for the remainder of the run), so delivery is truncation. -/
def delivered (stopIdx : ℕ) (evs : List StreamEvent) : List StreamEvent :=
  evs.take stopIdx

/-- Model of `InferenceEngine::generate_text_stream` as observed by the consumer
callback when `stop()` is observed after `stopIdx` deliveries: the
not-loaded error bypasses the wrapper; everything else is filtered. -/
def engine_stream_delivered (be : Backend) (e : EngineSt) (prompt : String)
    (maxT stopIdx : ℕ) : List StreamEvent :=
  match e.model with
  | none => [.err "Error: Model not loaded"]
  | some m =>
    if m.loaded then delivered stopIdx (llm_generate_stream be m prompt maxT).events
    else [.err "Error: Model not loaded"]

/-!
Worker / channel lifecycle.

`LLMNodeBinding::GenerateStream` (`node_binding.cpp` lines 389-462) and
`InferenceEngine::generate_text_stream` (`inference_engine.cpp` lines 49-74)
are modelled as the sequence of lifecycle actions they perform, in program
order. A stream request performs, on the caller thread: set the cancellation
flag, join the previous binding worker, release the previous
ThreadSafeFunction channel, create a fresh channel, spawn the binding
worker; the binding worker then runs `generate_text_stream`, which sets the
flag again, joins the previous generation worker, clears the flag, and spawns
the new generation worker. Requests are serialized (the Node main thread
issues them, and joining the binding worker orders one request's engine
actions before the next request's post-join actions; the only action that can
overlap a previous worker is the flag write, which does not affect worker
counts), so a run of `n` requests is the concatenation of `n` copies of this
action list. -/

inductive WorkAct where
  | setCancel | joinBindWorker | releaseChannel | createChannel | spawnBindWorker
  | joinGenWorker | clearCancel | spawnGenWorker
deriving DecidableEq

/-- Lifecycle actions of one stream request (binding lines 406-429, then
engine lines 52-59 on the binding worker). -/
def streamCallActs : List WorkAct :=
  [.setCancel, .joinBindWorker, .releaseChannel, .createChannel, .spawnBindWorker,
   .setCancel, .joinGenWorker, .clearCancel, .spawnGenWorker]

/-- Live worker-thread counts: generation workers (`generation_thread_`) and
binding workers (`worker_thread_`). -/
structure WorkerCount where
  genW : ℕ
  bindW : ℕ
deriving DecidableEq

/-- Effect of one action on the worker counts: a join blocks until the
(unique) worker exits, a spawn adds one. -/
def stepAct (c : WorkerCount) : WorkAct → WorkerCount
  | .joinGenWorker => { c with genW := 0 }
  | .spawnGenWorker => { c with genW := c.genW + 1 }
  | .joinBindWorker => { c with bindW := 0 }
  | .spawnBindWorker => { c with bindW := c.bindW + 1 }
  | _ => c

def runActs (c : WorkerCount) (l : List WorkAct) : WorkerCount :=
  l.foldl stepAct c

/-- Both worker counts stay at most 1 at every intermediate state of `l`
starting from `c` (final state included). -/
def actsOk (c : WorkerCount) : List WorkAct → Bool
  | [] => decide (c.genW ≤ 1 ∧ c.bindW ≤ 1)
  | a :: l => decide (c.genW ≤ 1 ∧ c.bindW ≤ 1) && actsOk (stepAct c a) l

/-- The action trace of `n` successive stream requests. -/
def engineTrace : ℕ → List WorkAct
  | 0 => []
  | n + 1 => streamCallActs ++ engineTrace n

/-! Concrete instances used for closed evaluations. -/

/-- Computable, everywhere-positive, strictly increasing stand-in for `expf`
in closed evaluations. -/
def qexp (x : ℚ) : ℚ := if x < 0 then 1 / (1 - x) else 1 + x

/-- A well-behaved concrete backend: tokenization fails exactly on the empty
prompt, all backend calls succeed, every step's logits are `[0, 1]`, every
draw is 0, every piece has length 1. -/
def qBackend : Backend where
  load_ok := fun _ => true
  tokenize := fun s => if s = "" then [] else [3]
  add_bos := false
  bos := 1
  eos := 5
  ctx_ok := true
  logits_at := fun _ => some [0, 1]
  decode_prompt_ok := fun _ => true
  decode_tok_ok := fun _ => true
  piece_len := fun _ => 1
  piece_text := fun _ => "a"
  draw := fun _ => 0
  fexp := qexp

/-- Concrete configuration with `temperature = 0` and the remaining header
defaults (`top_k = 40`). -/
def cfgT0 : ModelConfig := { model_path := "m", temperature := 0 }

/-- A loaded model state with an empty history and `cfgT0`. -/
def st0 : ModelSt :=
  { loaded := true, ctx := false, recent := [], cfg := cfgT0 }

/-! Helper lemmas. -/

theorem pushRecent_length {l : List ℕ} (t : ℕ) (h : l.length ≤ 128) :
    (pushRecent l t).length ≤ 128 := by
  by_cases hc : 128 < (l ++ [t]).length
  · simp only [pushRecent, if_pos hc]
    simp at hc ⊢
    omega
  · simp only [pushRecent, if_neg hc]
    simp at hc ⊢
    omega

theorem foldl_pushRecent (ts : List ℕ) :
    ∀ l : List ℕ, l.length ≤ 128 →
      List.foldl pushRecent l ts = (l ++ ts).drop (l.length + ts.length - 128) := by
  induction ts with
  | nil =>
    intro l h
    simp only [List.foldl_nil, List.append_nil, List.length_nil, Nat.add_zero]
    rw [Nat.sub_eq_zero_of_le h, List.drop_zero]
  | cons t ts ih =>
    intro l h
    rcases Nat.lt_or_ge l.length 128 with hlt | hge
    · have hpush : pushRecent l t = l ++ [t] := by
        simp only [pushRecent]
        rw [if_neg (by simp; omega)]
      have hlen : (l ++ [t]).length ≤ 128 := by simp; omega
      rw [List.foldl_cons, hpush, ih _ hlen]
      have hidx : (l ++ [t]).length + ts.length - 128
          = l.length + (t :: ts).length - 128 := by
        simp [List.length_append]
        omega
      rw [hidx, List.append_assoc, List.singleton_append]
    · have h128 : l.length = 128 := le_antisymm h hge
      have hpush : pushRecent l t = (l ++ [t]).drop 1 := by
        simp only [pushRecent]
        rw [if_pos (by simp; omega)]
      have hlen : ((l ++ [t]).drop 1).length ≤ 128 := by simp; omega
      rw [List.foldl_cons, hpush, ih _ hlen]
      have hd : ((l ++ [t]) ++ ts).drop 1 = ((l ++ [t]).drop 1) ++ ts :=
        List.drop_append_of_le_length (by simp)
      rw [← hd, List.drop_drop, List.append_assoc, List.singleton_append]
      have hidx : 1 + (((l ++ [t]).drop 1).length + ts.length - 128)
          = l.length + (t :: ts).length - 128 := by
        simp [h128]
        omega
      rw [hidx]

theorem sample_recent_bounded (cfg : ModelConfig) (fexp : ℚ → ℚ) (r : ℚ)
    (logits : List ℚ) {l : List ℕ} (h : l.length ≤ 128) :
    (sample_next_token cfg fexp r logits l).2.length ≤ 128 := by
  unfold sample_next_token
  split
  · exact h
  · rcases hc : cumFind r 0 0 (softmaxProbs fexp (maskTopK cfg (postTemp cfg logits))) with _ | i
    · simpa [hc] using pushRecent_length _ h
    · simpa [hc] using pushRecent_length _ h

/-! C8. -/

/-- C8: the `recent_tokens_` buffer never exceeds its fixed capacity of 128
after any sequence of sampler calls; pushes evict oldest-first, and pushing
`128 + N` tokens from an empty buffer retains exactly the most recent 128.
The buffer is mutated only by `pushRecent` inside `sample_next_token`. -/
theorem c8_recent_capacity_and_fifo (l ts : List ℕ) (t : ℕ)
    (cfg : ModelConfig) (fexp : ℚ → ℚ) (r : ℚ) (logits : List ℚ)
    (h : l.length ≤ 128) :
    (List.foldl pushRecent l ts).length ≤ 128 ∧
    List.foldl pushRecent [] ts = ts.drop (ts.length - 128) ∧
    (l.length = 128 → pushRecent l t = l.drop 1 ++ [t]) ∧
    (sample_next_token cfg fexp r logits l).2.length ≤ 128 := by
  refine ⟨?_, ?_, ?_, sample_recent_bounded cfg fexp r logits h⟩
  · rw [foldl_pushRecent ts l h]
    simp
    omega
  · rw [foldl_pushRecent ts [] (by simp)]
    simp
  · intro h128
    unfold pushRecent
    rw [if_pos (by simp [h128])]
    rw [List.drop_append_of_le_length (by simp [h128])]

/-- Witness for C8 at a concrete full buffer and a concrete overflow push
sequence. -/
theorem c8_witness :
    (List.replicate 128 0 : List ℕ).length ≤ 128 ∧
    (List.foldl pushRecent (List.replicate 128 0) (List.range 130)).length ≤ 128 ∧
    List.foldl pushRecent [] (List.range 130) = (List.range 130).drop 2 := by
  have h := c8_recent_capacity_and_fifo (List.replicate 128 0) (List.range 130) 0
    cfgT0 qexp 0 [] (by simp)
  exact ⟨by simp, h.1, by simpa using h.2.1⟩

/-! C6. -/

/-- C6 counterexample: on an empty logits vector `sample_next_token` returns
the token id 0 with the history unchanged — a normal return, not a
`SamplingError::EmptyDistribution` failure (no such error value exists in
the code; `llm_model.cpp` line 369 is `if (logits.empty()) return 0;`). -/
theorem c6_empty_logits_returns_zero :
    sample_next_token cfgT0 qexp (1/2) [] [7] = (0, [7]) := by
  simp [sample_next_token]

/-- C6 (amended): invoked on an empty logits vector, the sampler returns
token id 0 immediately (for every configuration, draw and history), leaving
the history untouched; no error is signalled and the decode loop continues
treating 0 as the sampled token. -/
theorem c6_empty_logits_token_zero (cfg : ModelConfig) (fexp : ℚ → ℚ)
    (r : ℚ) (recent : List ℕ) :
    sample_next_token cfg fexp r [] recent = (0, recent) := by
  simp [sample_next_token]

/-! C1. -/

/-- C1 counterexample: with `temperature = 0` (and the header-default
`top_k = 40`, inactive on a 2-entry vocabulary) the sampler still performs
the stochastic softmax draw over the raw logits `[0, 1]`: draw 0 selects
token 0 while draw 9/10 selects token 1, and `argmax` is 1 — so the sampler
is neither deterministic nor equal to `argmax(logits)`. -/
theorem c1_temp_zero_not_argmax :
    (sample_next_token cfgT0 qexp 0 [0, 1] []).1 = 0 ∧
    (sample_next_token cfgT0 qexp (9/10) [0, 1] []).1 = 1 ∧
    argmaxLogits [0, 1] = 1 := by
  refine ⟨?_, ?_, ?_⟩ <;>
    norm_num [sample_next_token, postTemp, maskTopK, softmaxProbs, listMax, expAt,
      cumFind, pushRecent, qexp, cfgT0, topKFilter, keptIdx, idxPairs,
      argmaxLogits, argmaxFirst, argmaxAux, List.cons_ne_nil]

/-- C1 (amended): `temperature = 0` only skips the division of the logits by
the temperature; the sampler then runs the identical stochastic
softmax-and-draw pipeline on the raw logits, i.e. it behaves exactly as
`temperature = 1` — not as a deterministic greedy argmax. -/
theorem c1_temp_zero_same_as_temp_one (cfg : ModelConfig) (fexp : ℚ → ℚ)
    (r : ℚ) (logits : List ℚ) (recent : List ℕ) :
    sample_next_token { cfg with temperature := 0 } fexp r logits recent =
    sample_next_token { cfg with temperature := 1 } fexp r logits recent := by
  have h0 : postTemp { cfg with temperature := 0 } logits = logits := by
    unfold postTemp
    rw [if_neg (by norm_num)]
  have h1 : postTemp { cfg with temperature := 1 } logits = logits := by
    unfold postTemp
    rw [if_pos (by norm_num)]
    simp
  unfold sample_next_token
  rw [h0, h1]
  rfl

/-! C5 infrastructure. -/

theorem cumFind_pos (r : ℚ) :
    ∀ (ps : List ℚ) (c : ℚ) (i0 j : ℕ), cumFind r c i0 ps = some j → c < r →
      ∃ t, t < ps.length ∧ j = i0 + t ∧ 0 < ps.getD t 0 := by
  intro ps
  induction ps with
  | nil => intro c i0 j h _; simp [cumFind] at h
  | cons p ps ih =>
    intro c i0 j h hc
    by_cases hle : r ≤ c + p
    · have hj : i0 = j := by simpa [cumFind, hle] using h
      refine ⟨0, by simp, by omega, ?_⟩
      simp only [List.getD_cons_zero]
      linarith
    · have h' : cumFind r (c + p) (i0 + 1) ps = some j := by
        simpa [cumFind, hle] using h
      obtain ⟨t, ht, hjt, hp⟩ := ih (c + p) (i0 + 1) j h' (by linarith [not_le.mp hle])
      exact ⟨t + 1, by simpa using Nat.succ_lt_succ ht, by omega,
        by simpa [List.getD_cons_succ] using hp⟩

theorem softmaxProbs_length (fexp : ℚ → ℚ) (masked : List (WithBot ℚ)) :
    (softmaxProbs fexp masked).length = masked.length := by
  simp only [softmaxProbs]
  split <;> simp

theorem softmax_pos_not_bot {fexp : ℚ → ℚ} {masked : List (WithBot ℚ)} {t : ℕ}
    (ht : t < masked.length)
    (hp : 0 < (softmaxProbs fexp masked).getD t 0) :
    masked.getD t ⊥ ≠ ⊥ := by
  intro hb
  rw [List.getD_eq_getElem _ _ ht] at hb
  have hlen : t < (masked.map (expAt fexp ((listMax masked).unbot' 0))).length := by
    simpa using ht
  have hraw : (masked.map (expAt fexp ((listMax masked).unbot' 0))).getD t 0 = 0 := by
    rw [List.getD_eq_getElem _ _ hlen]
    simp [hb, expAt]
  revert hp
  simp only [softmaxProbs]
  split
  · have hlen2 : t < ((masked.map (expAt fexp ((listMax masked).unbot' 0))).map
        (fun p => p / (masked.map (expAt fexp ((listMax masked).unbot' 0))).sum)).length := by
      simpa using ht
    rw [List.getD_eq_getElem _ _ hlen2, List.getElem_map]
    rw [List.getD_eq_getElem _ _ hlen] at hraw
    simp [hraw]
  · rw [hraw]
    simp

theorem topKFilter_length (k : ℕ) (v : List ℚ) :
    (topKFilter k v).length = v.length := by
  simp [topKFilter]

theorem topKFilter_getD {k : ℕ} {v : List ℚ} {t : ℕ} (ht : t < v.length) :
    (topKFilter k v).getD t ⊥ =
      if t ∈ keptIdx k v then (v.getD t 0 : WithBot ℚ) else ⊥ := by
  have ht' : t < (topKFilter k v).length := by simpa [topKFilter] using ht
  rw [List.getD_eq_getElem _ _ ht', List.getD_eq_getElem _ _ ht]
  simp only [topKFilter, List.getElem_map, List.getElem_enum]

theorem idxPairs_length (v : List ℚ) : (idxPairs v).length = v.length := by
  simp [idxPairs]

theorem idxPairs_mem {v : List ℚ} {q : ℚ × ℕ} (h : q ∈ idxPairs v) :
    q.2 < v.length ∧ v.getD q.2 0 = q.1 := by
  unfold idxPairs at h
  obtain ⟨p, hp, hpq⟩ := List.mem_map.mp h
  obtain ⟨i, x⟩ := p
  cases hpq
  have hq := List.mk_mem_enum_iff_getElem?.mp hp
  obtain ⟨hlt, hval⟩ := List.getElem?_eq_some_iff.mp hq
  exact ⟨hlt, by rw [List.getD_eq_getElem _ _ hlt]; exact hval⟩

theorem mem_keptIdx_lt {k : ℕ} {v : List ℚ} {j : ℕ} (hj : j ∈ keptIdx k v) :
    j < v.length := by
  obtain ⟨q, hqtake, hq2⟩ := List.mem_map.mp hj
  have hqs : q ∈ (idxPairs v).insertionSort pairOrder := List.mem_of_mem_take hqtake
  have hqp : q ∈ idxPairs v := (List.perm_insertionSort pairOrder _).mem_iff.mp hqs
  exact hq2 ▸ (idxPairs_mem hqp).1

theorem mem_keptIdx_countP {k : ℕ} {v : List ℚ} (hk : k < v.length) {j : ℕ}
    (hj : j ∈ keptIdx k v) :
    (v.countP fun x => decide (v.getD j 0 < x)) < k := by
  classical
  set s := (idxPairs v).insertionSort pairOrder with hs
  have hperm : s.Perm (idxPairs v) := List.perm_insertionSort _ _
  have hsorted : List.Sorted pairOrder s := List.sorted_insertionSort _ _
  have hslen : s.length = v.length := by rw [hperm.length_eq, idxPairs_length]
  obtain ⟨q, hqtake, hq2⟩ := List.mem_map.mp hj
  have hqs : q ∈ s := List.mem_of_mem_take hqtake
  have hqp : q ∈ idxPairs v := hperm.mem_iff.mp hqs
  obtain ⟨hq2lt, hq1⟩ := idxPairs_mem hqp
  have hth : v.getD j 0 = q.1 := by rw [← hq2, hq1]
  rw [hth]
  have hmap : (idxPairs v).map Prod.fst = v := by
    unfold idxPairs
    rw [List.map_map]
    have hc : (Prod.fst ∘ fun p : ℕ × ℚ => (p.2, p.1)) = Prod.snd := rfl
    rw [hc, List.enum_map_snd]
  have hcv : v.countP (fun x => decide (q.1 < x))
      = s.countP (fun p => decide (q.1 < p.1)) := by
    conv_lhs => rw [← hmap]
    rw [List.countP_map]
    exact ((hperm.countP_eq _).symm)
  have hsplit : s = s.take k ++ s.drop k := (List.take_append_drop k s).symm
  have hpair : List.Pairwise pairOrder (s.take k ++ s.drop k) := by
    rw [← hsplit]; exact hsorted
  have hpa := List.pairwise_append.mp hpair
  have hdrop0 : (s.drop k).countP (fun p => decide (q.1 < p.1)) = 0 := by
    rw [List.countP_eq_zero]
    intro p' hp'
    have hrel : pairOrder q p' := hpa.2.2 q hqtake p' hp'
    simp only [decide_eq_true_eq]
    rcases hrel with hlt | ⟨heq, _⟩
    · exact not_lt.mpr hlt.le
    · rw [heq]; exact lt_irrefl _
  have htlen : (s.take k).length = k := by
    rw [List.length_take]
    omega
  have htake_lt : (s.take k).countP (fun p => decide (q.1 < p.1)) < k := by
    have hle : (s.take k).countP (fun p => decide (q.1 < p.1)) ≤ (s.take k).length :=
      List.countP_le_length _
    rcases Nat.lt_or_ge ((s.take k).countP (fun p => decide (q.1 < p.1))) k with hlt | hge
    · exact hlt
    · exfalso
      have heq : (s.take k).countP (fun p => decide (q.1 < p.1)) = (s.take k).length := by
        omega
      have hall := List.countP_eq_length.mp heq q hqtake
      simp at hall
  calc v.countP (fun x => decide (q.1 < x))
      = s.countP (fun p => decide (q.1 < p.1)) := hcv
    _ = (s.take k).countP (fun p => decide (q.1 < p.1))
        + (s.drop k).countP (fun p => decide (q.1 < p.1)) := by
        conv_lhs => rw [hsplit]
        exact List.countP_append _ _ _
    _ < k := by rw [hdrop0]; simpa using htake_lt

theorem not_bot_mem_keptIdx {k : ℕ} {v : List ℚ} {t : ℕ} (ht : t < v.length)
    (hb : (topKFilter k v).getD t ⊥ ≠ ⊥) : t ∈ keptIdx k v := by
  rw [topKFilter_getD ht] at hb
  by_contra hmem
  rw [if_neg hmem] at hb
  exact hb rfl

theorem exists_mem_keptIdx {k : ℕ} {v : List ℚ} (hk0 : 0 < k)
    (hkn : k < v.length) : ∃ j, j ∈ keptIdx k v := by
  classical
  set s := (idxPairs v).insertionSort pairOrder with hs
  have hslen : s.length = v.length := by
    rw [(List.perm_insertionSort pairOrder _).length_eq, idxPairs_length]
  have htlen : (s.take k).length = k := by rw [List.length_take]; omega
  have hne : s.take k ≠ [] := by
    intro hnil
    rw [hnil] at htlen
    simp at htlen
    omega
  obtain ⟨q, hq⟩ := List.exists_mem_of_ne_nil _ hne
  exact ⟨q.2, List.mem_map.mpr ⟨q, hq, rfl⟩⟩

theorem argmaxAux_spec :
    ∀ (xs : List (WithBot ℚ)) (i : ℕ) (b : ℕ × WithBot ℚ),
      (argmaxAux xs i b = b ∨
        ∃ t, t < xs.length ∧ (argmaxAux xs i b).1 = i + t ∧
          (argmaxAux xs i b).2 = xs.getD t ⊥) ∧
      (∀ x ∈ xs, ¬ (argmaxAux xs i b).2 < x) ∧
      ¬ (argmaxAux xs i b).2 < b.2 := by
  intro xs
  induction xs with
  | nil => exact fun i b => ⟨Or.inl rfl, by simp, lt_irrefl _⟩
  | cons x xs ih =>
    intro i b
    simp only [argmaxAux]
    by_cases hbx : b.2 < x
    · rw [if_pos hbx]
      obtain ⟨hloc, hmax, hbest⟩ := ih (i + 1) (i, x)
      refine ⟨?_, ?_, ?_⟩
      · rcases hloc with heq | ⟨t, ht, h1, h2⟩
        · right
          exact ⟨0, by simp, by rw [heq]; simp, by rw [heq]; simp⟩
        · right
          refine ⟨t + 1, by simpa using Nat.succ_lt_succ ht, by omega, ?_⟩
          rw [h2, List.getD_cons_succ]
      · intro y hy
        rcases List.mem_cons.mp hy with rfl | hmem
        · exact hbest
        · exact hmax y hmem
      · intro hcon
        exact hbest (lt_trans hcon hbx)
    · rw [if_neg hbx]
      obtain ⟨hloc, hmax, hbest⟩ := ih (i + 1) b
      refine ⟨?_, ?_, hbest⟩
      · rcases hloc with heq | ⟨t, ht, h1, h2⟩
        · exact Or.inl heq
        · right
          refine ⟨t + 1, by simpa using Nat.succ_lt_succ ht, by omega, ?_⟩
          rw [h2, List.getD_cons_succ]
      · intro y hy
        rcases List.mem_cons.mp hy with rfl | hmem
        · intro hcon
          exact hbest (lt_of_lt_of_le hcon (not_lt.mp hbx))
        · exact hmax y hmem

theorem argmaxFirst_spec {l : List (WithBot ℚ)} (hne : l ≠ []) :
    argmaxFirst l < l.length ∧ ∀ x ∈ l, ¬ l.getD (argmaxFirst l) ⊥ < x := by
  match l, hne with
  | x :: xs, _ =>
    obtain ⟨hloc, hmax, hbest⟩ := argmaxAux_spec xs 1 (0, x)
    have hdef : argmaxFirst (x :: xs) = (argmaxAux xs 1 (0, x)).1 := rfl
    have hval : (x :: xs).getD (argmaxAux xs 1 (0, x)).1 ⊥ = (argmaxAux xs 1 (0, x)).2 := by
      rcases hloc with heq | ⟨t, ht, h1, h2⟩
      · rw [heq]; simp
      · rw [h1]
        have : (1 : ℕ) + t = t + 1 := by omega
        rw [this, List.getD_cons_succ, h2]
    constructor
    · rw [hdef]
      rcases hloc with heq | ⟨t, ht, h1, h2⟩
      · rw [heq]; simp
      · rw [h1]; simp; omega
    · intro y hy
      rw [hdef, hval]
      rcases List.mem_cons.mp hy with rfl | hmem
      · exact hbest
      · exact hmax y hmem

/-! C5. -/

/-- C5 counterexample: with `top_k = 1` on logits `[0, 1]` (so only index 1
survives the filter and index 0 is set to `-INFINITY`, probability 0), the
draw `r = 0` already satisfies `r ≤ cumsum` at index 0 — the sampler returns
token 0, whose pre-filter logit 0 is NOT among the top-1 highest values
(exactly one value, namely 1, exceeds it). -/
theorem c5_zero_draw_escapes_topk :
    (sample_next_token { cfgT0 with top_k := 1 } qexp 0 [0, 1] []).1 = 0 ∧
    ((postTemp { cfgT0 with top_k := 1 } [0, 1]).countP fun x =>
      decide ((postTemp { cfgT0 with top_k := 1 } [0, 1]).getD 0 0 < x)) = 1 := by
  constructor <;>
    norm_num [sample_next_token, postTemp, maskTopK, softmaxProbs, listMax, expAt,
      cumFind, pushRecent, qexp, cfgT0, topKFilter, keptIdx, idxPairs,
      List.insertionSort, List.orderedInsert, pairOrder, List.countP, List.countP.go,
      List.cons_ne_nil, List.enum, List.enumFrom, Function.comp]

/-- C5 (amended): for every logits vector, any configuration with
`1 ≤ top_k < vocab_size`, and any STRICTLY POSITIVE draw `r`, the token id
returned by the sampler has a pre-filter (post-temperature) logit among the
`top_k` highest values of the vector (fewer than `top_k` entries exceed it);
all non-top-`k` logits are set to `-INFINITY` before the softmax and
cumulative walk. (At `r = 0` the guarantee fails — see the counterexample —
because a filtered-out index with probability 0 can already satisfy
`r ≤ cumsum`.) -/
theorem c5_topk_membership_for_positive_draw (cfg : ModelConfig)
    (fexp : ℚ → ℚ) (r : ℚ) (logits : List ℚ) (recent : List ℕ)
    (hk0 : 0 < cfg.top_k) (hkn : cfg.top_k < (logits.length : ℤ)) (hr : 0 < r) :
    (sample_next_token cfg fexp r logits recent).1 < logits.length ∧
    (((postTemp cfg logits).countP fun x =>
        decide ((postTemp cfg logits).getD
          (sample_next_token cfg fexp r logits recent).1 0 < x)) : ℤ)
      < cfg.top_k := by
  have hne : logits ≠ [] := by
    intro h
    rw [h] at hkn
    simp at hkn
    omega
  have hvlen : (postTemp cfg logits).length = logits.length := by
    unfold postTemp
    split <;> simp
  have hk0' : 0 < cfg.top_k.toNat := by omega
  have hkn' : cfg.top_k.toNat < (postTemp cfg logits).length := by
    rw [hvlen]; omega
  have hmask : maskTopK cfg (postTemp cfg logits)
      = topKFilter cfg.top_k.toNat (postTemp cfg logits) := by
    unfold maskTopK
    rw [if_pos ⟨hk0, by rw [hvlen]; exact hkn⟩]
  have hchar : (sample_next_token cfg fexp r logits recent).1
        < (postTemp cfg logits).length ∧
      (topKFilter cfg.top_k.toNat (postTemp cfg logits)).getD
        (sample_next_token cfg fexp r logits recent).1 ⊥ ≠ ⊥ := by
    simp only [sample_next_token]
    rw [if_neg hne, hmask]
    have hmlen : (topKFilter cfg.top_k.toNat (postTemp cfg logits)).length
        = (postTemp cfg logits).length := topKFilter_length _ _
    rcases hcf : cumFind r 0 0
        (softmaxProbs fexp (topKFilter cfg.top_k.toNat (postTemp cfg logits)))
        with _ | a
    · simp only [hcf]
      have hmne : topKFilter cfg.top_k.toNat (postTemp cfg logits) ≠ [] := by
        intro hnil
        rw [hnil] at hmlen
        simp at hmlen
        omega
      obtain ⟨hbound, hmaxi⟩ := argmaxFirst_spec hmne
      refine ⟨by omega, ?_⟩
      obtain ⟨j0, hj0⟩ := exists_mem_keptIdx hk0' hkn'
      have hj0lt : j0 < (postTemp cfg logits).length := mem_keptIdx_lt hj0
      have hj0val : (topKFilter cfg.top_k.toNat (postTemp cfg logits)).getD j0 ⊥
          = ((postTemp cfg logits).getD j0 0 : WithBot ℚ) := by
        rw [topKFilter_getD hj0lt, if_pos hj0]
      have hj0mem : ((postTemp cfg logits).getD j0 0 : WithBot ℚ)
          ∈ topKFilter cfg.top_k.toNat (postTemp cfg logits) := by
        rw [← hj0val, List.getD_eq_getElem _ _ (by omega)]
        exact List.getElem_mem _
      intro hb
      exact hmaxi _ hj0mem (by rw [hb]; exact WithBot.bot_lt_coe _)
    · simp only [hcf]
      obtain ⟨t, ht, hat, hp⟩ := cumFind_pos r _ 0 0 a hcf hr
      have halen : a < (topKFilter cfg.top_k.toNat (postTemp cfg logits)).length := by
        rw [softmaxProbs_length] at ht
        omega
      refine ⟨by omega, ?_⟩
      have hp' : 0 < (softmaxProbs fexp
          (topKFilter cfg.top_k.toNat (postTemp cfg logits))).getD a 0 := by
        rw [hat]
        simpa using hp
      exact softmax_pos_not_bot halen hp'
  obtain ⟨halen, hanb⟩ := hchar
  have hkept := not_bot_mem_keptIdx halen hanb
  have hcnt := mem_keptIdx_countP hkn' hkept
  refine ⟨by omega, by omega⟩

/-- Witness for C5 at `top_k = 1`, logits `[0, 1]`, draw `1/2`: the
hypotheses hold and the sampler picks token 1, the unique top-1 entry. -/
theorem c5_witness :
    (0 < ({ cfgT0 with top_k := 1 } : ModelConfig).top_k ∧
      ({ cfgT0 with top_k := 1 } : ModelConfig).top_k < (([0, 1] : List ℚ).length : ℤ) ∧
      (0 : ℚ) < 1/2) ∧
    (sample_next_token { cfgT0 with top_k := 1 } qexp (1/2) [0, 1] []).1
      < ([0, 1] : List ℚ).length := by
  refine ⟨⟨by norm_num, by norm_num, by norm_num⟩, ?_⟩
  exact (c5_topk_membership_for_positive_draw { cfgT0 with top_k := 1 } qexp (1/2)
    [0, 1] [] (by norm_num) (by norm_num) (by norm_num)).1

/-! C10 infrastructure: invariants of the streaming token-generation loop. -/

theorem genLoop_spec (be : Backend) (maxT inLen : ℕ) :
    ∀ (fuel i : ℕ) (st : ModelSt) (evs : List StreamEvent) (gen fed : List ℕ),
      ∃ d : List ℕ,
        (genLoop be maxT inLen fuel i st evs gen fed).genTokens = gen ++ d ∧
        (genLoop be maxT inLen fuel i st evs gen fed).fed = fed ++ d ∧
        d.length ≤ fuel ∧
        (genLoop be maxT inLen fuel i st evs gen fed).events.countP StreamEvent.isText
          = evs.countP StreamEvent.isText
            + (d.filter fun t => decide (0 < be.piece_len t)).length ∧
        (genLoop be maxT inLen fuel i st evs gen fed).events.countP StreamEvent.isTerminal
          = evs.countP StreamEvent.isTerminal + 1 ∧
        (∀ m, (genLoop be maxT inLen fuel i st evs gen fed).events.getLast?
            = some (.done m) → m.output_tokens = gen.length + d.length) := by
  intro fuel
  induction fuel with
  | zero =>
    intro i st evs gen fed
    refine ⟨[], by simp [genLoop], by simp [genLoop], by simp, ?_, ?_, ?_⟩
    · simp [genLoop, List.countP_append, StreamEvent.isText]
    · simp [genLoop, List.countP_append, StreamEvent.isTerminal]
    · intro m hm
      simp only [genLoop, List.getLast?_concat, Option.some.injEq] at hm
      have : m = mkMetrics st.cfg inLen gen.length maxT := by
        cases hm
        rfl
      rw [this]
      simp [mkMetrics]
  | succ fuel ih =>
    intro i st evs gen fed
    simp only [genLoop]
    rcases hl : be.logits_at i with _ | logits
    · refine ⟨[], by simp, by simp, by simp, ?_, ?_, ?_⟩
      · simp [List.countP_append, StreamEvent.isText]
      · simp [List.countP_append, StreamEvent.isTerminal]
      · intro m hm
        rw [List.getLast?_concat] at hm
        simp at hm
    · dsimp only
      by_cases heos : (sample_next_token st.cfg be.fexp (be.draw i) logits st.recent).1
          = be.eos
      · rw [if_pos heos]
        refine ⟨[], by simp, by simp, by simp, ?_, ?_, ?_⟩
        · simp [List.countP_append, StreamEvent.isText]
        · simp [List.countP_append, StreamEvent.isTerminal]
        · intro m hm
          rw [List.getLast?_concat] at hm
          have : m = mkMetrics st.cfg inLen gen.length maxT := by
            simpa using hm.symm
          rw [this]
          simp [mkMetrics]
      · rw [if_neg heos]
        by_cases hdec : be.decode_tok_ok i
        · rw [if_pos hdec]
          obtain ⟨d, h1, h2, h3, h4, h5, h6⟩ := ih (i + 1)
            { st with recent := (sample_next_token st.cfg be.fexp (be.draw i)
                logits st.recent).2 }
            (if 0 < be.piece_len (sample_next_token st.cfg be.fexp (be.draw i)
                logits st.recent).1
              then evs ++ [.text (be.piece_text (sample_next_token st.cfg be.fexp
                (be.draw i) logits st.recent).1)]
              else evs)
            (gen ++ [(sample_next_token st.cfg be.fexp (be.draw i) logits st.recent).1])
            (fed ++ [(sample_next_token st.cfg be.fexp (be.draw i) logits st.recent).1])
          refine ⟨(sample_next_token st.cfg be.fexp (be.draw i) logits st.recent).1 :: d,
            ?_, ?_, by simpa using h3, ?_, ?_, ?_⟩
          · rw [h1, List.append_assoc, List.singleton_append]
          · rw [h2, List.append_assoc, List.singleton_append]
          · rw [h4]
            by_cases hpz : 0 < be.piece_len (sample_next_token st.cfg be.fexp
                (be.draw i) logits st.recent).1
            · rw [if_pos hpz]
              simp [List.countP_append, StreamEvent.isText, List.filter_cons, hpz]
              omega
            · rw [if_neg hpz]
              simp [List.filter_cons, hpz]
          · rw [h5]
            by_cases hpz : 0 < be.piece_len (sample_next_token st.cfg be.fexp
                (be.draw i) logits st.recent).1
            · rw [if_pos hpz]
              simp [List.countP_append, StreamEvent.isTerminal]
            · rw [if_neg hpz]
          · intro m hm
            have hout := h6 m hm
            rw [hout]
            simp
            omega
        · rw [if_neg hdec]
          refine ⟨[(sample_next_token st.cfg be.fexp (be.draw i) logits st.recent).1],
            rfl, rfl, by simp, ?_, ?_, ?_⟩
          · by_cases hpz : 0 < be.piece_len (sample_next_token st.cfg be.fexp
                (be.draw i) logits st.recent).1
            · rw [if_pos hpz]
              simp [List.countP_append, StreamEvent.isText, List.filter_cons, hpz]
            · rw [if_neg hpz]
              simp [List.countP_append, StreamEvent.isText, List.filter_cons, hpz]
          · by_cases hpz : 0 < be.piece_len (sample_next_token st.cfg be.fexp
                (be.draw i) logits st.recent).1
            · rw [if_pos hpz]
              simp [List.countP_append, StreamEvent.isTerminal]
            · rw [if_neg hpz]
              simp [List.countP_append, StreamEvent.isTerminal]
          · intro m hm
            rw [List.getLast?_concat] at hm
            simp at hm

theorem genLoop_events_terminal (be : Backend) (maxT inLen fuel i : ℕ)
    (st : ModelSt) :
    (genLoop be maxT inLen fuel i st [] [] []).events.countP StreamEvent.isTerminal
      = 1 := by
  obtain ⟨d, _, _, _, _, h5, _⟩ := genLoop_spec be maxT inLen fuel i st [] [] []
  rw [h5]
  simp

theorem stream_one_terminal (be : Backend) (st : ModelSt) (prompt : String)
    (maxT : ℕ) :
    (llm_generate_stream be st prompt maxT).events.countP StreamEvent.isTerminal
      = 1 := by
  by_cases h1 : st.loaded = true
  · by_cases h2 : be.ctx_ok = true
    · by_cases h3 : be.tokenize prompt = []
      · simp [llm_generate_stream, h1, h2, h3, StreamEvent.isTerminal]
      · by_cases h4 : decodeChunksOk be st.cfg.batch_size
            (if be.add_bos then be.bos :: be.tokenize prompt else be.tokenize prompt)
            = true
        · simp only [llm_generate_stream, h1, h2, h3, h4, Bool.not_true,
            Bool.false_eq_true, if_false, if_neg h3, if_true]
          exact genLoop_events_terminal _ _ _ _ _ _
        · simp [llm_generate_stream, h1, h2, h3, h4, StreamEvent.isTerminal]
    · simp [llm_generate_stream, h1, h2, StreamEvent.isTerminal]
  · simp [llm_generate_stream, h1, StreamEvent.isTerminal]

/-! C10. -/

theorem genLoop_accounting (be : Backend) (maxT inLen fuel i : ℕ) (st : ModelSt) :
    (genLoop be maxT inLen fuel i st [] [] []).fed
        = (genLoop be maxT inLen fuel i st [] [] []).genTokens ∧
    (genLoop be maxT inLen fuel i st [] [] []).events.countP StreamEvent.isText
        = ((genLoop be maxT inLen fuel i st [] [] []).genTokens.filter
            fun t => decide (0 < be.piece_len t)).length ∧
    (genLoop be maxT inLen fuel i st [] [] []).genTokens.length ≤ fuel ∧
    (∀ m, (genLoop be maxT inLen fuel i st [] [] []).events.getLast?
        = some (.done m) →
      m.output_tokens = (genLoop be maxT inLen fuel i st [] [] []).genTokens.length) := by
  obtain ⟨d, hg, hf, hlen, htext, _, hdone⟩ := genLoop_spec be maxT inLen fuel i st [] [] []
  refine ⟨by rw [hg, hf], by rw [htext, hg]; simp, by rw [hg]; simpa using hlen, ?_⟩
  intro m hm
  rw [hdone m hm, hg]
  simp

/-- C10: in a streaming generation, every sampled non-EOS token is counted
(`tokens_generated`) and fed back to `llama_decode` to extend the KV-cache
(`fed = genTokens`), but a token-text event is emitted only when its
detokenised piece length is positive — so the number of token-text events
equals the number of counted tokens with positive piece length (and can be
strictly less than `output_tokens`), the terminal `[DONE]` metrics report
`output_tokens = genTokens.length`, and at most `max_tokens` tokens are
counted. -/
theorem c10_output_token_accounting (be : Backend) (st : ModelSt)
    (prompt : String) (maxT : ℕ) :
    (llm_generate_stream be st prompt maxT).fed
        = (llm_generate_stream be st prompt maxT).genTokens ∧
    (llm_generate_stream be st prompt maxT).events.countP StreamEvent.isText
        = ((llm_generate_stream be st prompt maxT).genTokens.filter
            fun t => decide (0 < be.piece_len t)).length ∧
    (llm_generate_stream be st prompt maxT).genTokens.length ≤ maxT ∧
    (∀ m, (llm_generate_stream be st prompt maxT).events.getLast?
        = some (.done m) →
      m.output_tokens = (llm_generate_stream be st prompt maxT).genTokens.length) := by
  by_cases h1 : st.loaded = true
  · by_cases h2 : be.ctx_ok = true
    · by_cases h3 : be.tokenize prompt = []
      · simp [llm_generate_stream, h1, h2, h3, StreamEvent.isText]
      · by_cases h4 : decodeChunksOk be st.cfg.batch_size
            (if be.add_bos then be.bos :: be.tokenize prompt else be.tokenize prompt)
            = true
        · simp only [llm_generate_stream, h1, h2, h3, h4, Bool.not_true,
            Bool.false_eq_true, if_false, if_neg h3, if_true]
          exact genLoop_accounting _ _ _ _ _ _
        · simp [llm_generate_stream, h1, h2, h3, h4, StreamEvent.isText]
    · simp [llm_generate_stream, h1, h2, StreamEvent.isText]
  · simp [llm_generate_stream, h1, StreamEvent.isText]

/-- Concrete backend whose only deviation from `qBackend` is that every
detokenised piece has length 0 (the `n_piece <= 0` case of line 155). -/
def beZeroPiece : Backend := { qBackend with piece_len := fun _ => 0 }

/-- Witness for C10: one generated token whose piece length is 0 — the
terminal metrics report `output_tokens = 1` while zero token-text events
were emitted. -/
theorem c10_witness :
    ((llm_generate_stream beZeroPiece st0 "p" 1).events.getLast?
        = some (.done (mkMetrics cfgT0 1 1 1))) ∧
    (mkMetrics cfgT0 1 1 1).output_tokens
        = (llm_generate_stream beZeroPiece st0 "p" 1).genTokens.length ∧
    (llm_generate_stream beZeroPiece st0 "p" 1).events.countP StreamEvent.isText
        = 0 := by
  have hrun : llm_generate_stream beZeroPiece st0 "p" 1
      = ⟨[.done (mkMetrics cfgT0 1 1 1)],
          { loaded := true, ctx := false, recent := [0], cfg := cfgT0 }, [0], [0]⟩ := by
    have hp : ¬ ("p" : String) = "" := by decide
    norm_num [hp, llm_generate_stream, genLoop, decodeChunksOk, promptChunks,
      beZeroPiece, qBackend, st0, cfgT0, mkMetrics,
      sample_next_token, postTemp, maskTopK, softmaxProbs, listMax, expAt,
      cumFind, pushRecent, qexp, topKFilter, keptIdx, idxPairs,
      List.cons_ne_nil, List.enum, List.enumFrom, Function.comp]
  refine ⟨by rw [hrun]; rfl, ?_, by rw [hrun]; simp [StreamEvent.isText]⟩
  have h := (c10_output_token_accounting beZeroPiece st0 "p" 1).2.2.2
    (mkMetrics cfgT0 1 1 1) (by rw [hrun]; rfl)
  exact h

/-! Shared concrete runs of the streaming model. -/

theorem qBackend_run1 :
    llm_generate_stream qBackend st0 "p" 1
      = ⟨[.text "a", .done (mkMetrics cfgT0 1 1 1)],
          { loaded := true, ctx := false, recent := [0], cfg := cfgT0 }, [0], [0]⟩ := by
  have hp : ¬ ("p" : String) = "" := by decide
  norm_num [hp, llm_generate_stream, genLoop, decodeChunksOk, promptChunks,
    qBackend, st0, cfgT0, mkMetrics,
    sample_next_token, postTemp, maskTopK, softmaxProbs, listMax, expAt,
    cumFind, pushRecent, qexp, topKFilter, keptIdx, idxPairs,
    List.cons_ne_nil, List.enum, List.enumFrom, Function.comp]

theorem qBackend_run2 :
    llm_generate_stream qBackend
        { loaded := true, ctx := false, recent := [0], cfg := cfgT0 } "p" 1
      = ⟨[.text "a", .done (mkMetrics cfgT0 1 1 1)],
          { loaded := true, ctx := false, recent := [0, 0], cfg := cfgT0 }, [0], [0]⟩ := by
  have hp : ¬ ("p" : String) = "" := by decide
  norm_num [hp, llm_generate_stream, genLoop, decodeChunksOk, promptChunks,
    qBackend, cfgT0, mkMetrics,
    sample_next_token, postTemp, maskTopK, softmaxProbs, listMax, expAt,
    cumFind, pushRecent, qexp, topKFilter, keptIdx, idxPairs,
    List.cons_ne_nil, List.enum, List.enumFrom, Function.comp]

/-! C2. -/

/-- C2 counterexample: on a loaded engine whose generation would emit one
token and one `[DONE]` metrics message, observing `stop()` before the first
delivery suppresses EVERYTHING — the consumer receives zero events and in
particular zero terminal events (the claim requires exactly one), even
though the model layer emitted exactly one terminal event. -/
theorem c2_stop_before_first_token_suppresses_terminal :
    engine_stream_delivered qBackend ⟨some st0⟩ "p" 1 0 = [] ∧
    (engine_stream_delivered qBackend ⟨some st0⟩ "p" 1 0).countP
      StreamEvent.isTerminal = 0 ∧
    (engine_stream_events qBackend ⟨some st0⟩ "p" 1).countP
      StreamEvent.isTerminal = 1 := by
  refine ⟨?_, ?_, ?_⟩
  · simp [engine_stream_delivered, delivered, st0]
  · simp [engine_stream_delivered, delivered, st0]
  · simpa [engine_stream_events, st0] using stream_one_terminal qBackend st0 "p" 1

/-- C2 (amended): the cancellation flag is consulted by the engine's
per-delivery wrapper, not polled by the decode loop; if `stop()` is observed
before the first delivery of a generation on a loaded model, every payload —
token texts AND the terminal event — is suppressed, so the stream delivers
zero events (zero terminal events), although the model layer emitted exactly
one terminal event and the decode loop ran to completion. -/
theorem c2_stop_before_first_delivery_delivers_nothing (be : Backend)
    (e : EngineSt) (m : ModelSt) (prompt : String) (maxT : ℕ)
    (hm : e.model = some m) (hl : m.loaded = true) :
    engine_stream_delivered be e prompt maxT 0 = [] ∧
    (engine_stream_delivered be e prompt maxT 0).countP
      StreamEvent.isTerminal = 0 ∧
    (engine_stream_events be e prompt maxT).countP StreamEvent.isTerminal = 1 := by
  refine ⟨?_, ?_, ?_⟩
  · simp [engine_stream_delivered, delivered, hm, hl]
  · simp [engine_stream_delivered, delivered, hm, hl]
  · simpa [engine_stream_events, hm, hl] using stream_one_terminal be m prompt maxT

/-- Witness for C2 on the concrete backend and a loaded engine. -/
theorem c2_witness :
    ((⟨some st0⟩ : EngineSt).model = some st0 ∧ st0.loaded = true) ∧
    engine_stream_delivered qBackend ⟨some st0⟩ "p" 1 0 = [] := by
  exact ⟨⟨rfl, rfl⟩,
    (c2_stop_before_first_delivery_delivers_nothing qBackend ⟨some st0⟩ st0
      "p" 1 rfl rfl).1⟩

/-! C3. -/

/-- C3: the claim fails on the code. On the synchronous path
(`generate_internal`, line 266) a tokenization failure returns
"Tokenization failed" WITHOUT freeing the just-created context: after the
call returns, the execution context is still live (`ctx = true`), violating
"the execution context created for that call is destroyed before the call
returns" on that exit path. The streaming path (line 111) does free it on
the same condition, confirming the intent. Inputs: loaded model, context
creation succeeding, empty prompt whose tokenization yields no tokens. -/
theorem c3_sync_tokenization_failure_leaks_context :
    (generate_internal qBackend st0 "" 5).output = "Tokenization failed" ∧
    (generate_internal qBackend st0 "" 5).st.ctx = true ∧
    (llm_generate_stream qBackend st0 "" 5).events = [.err "Tokenization failed"] ∧
    (llm_generate_stream qBackend st0 "" 5).st.ctx = false := by
  refine ⟨?_, ?_, ?_, ?_⟩ <;>
    simp [generate_internal, llm_generate_stream, qBackend, st0, cfgT0]

/-! C7. -/

/-- C7 counterexample: the token id 0 recorded in the history during the
first generation is still present (as the head of `[0, 0]`) after the second
generation's sampling — the history is not cleared between generations
(`recent_tokens_.clear()` is commented out at lines 87 and 244). -/
theorem c7_history_persists_across_generations :
    (llm_generate_stream qBackend st0 "p" 1).st.recent = [0] ∧
    (llm_generate_stream qBackend
      ((llm_generate_stream qBackend st0 "p" 1).st) "p" 1).st.recent = [0, 0] := by
  rw [qBackend_run1]
  exact ⟨rfl, by rw [qBackend_run2]⟩

/-- C7 (amended): the `recent_tokens_` history is NOT cleared at the start
of a generation call: a call with `max_tokens = 0` (and likewise every
pre-loop exit path) returns with the history exactly as it was before the
call, on both the streaming and the synchronous path; token ids recorded in
one generation therefore remain in the history when the next generation
begins sampling, subject only to the 128-entry FIFO eviction. -/
theorem c7_history_not_cleared_at_generation_start (be : Backend)
    (st : ModelSt) (prompt : String) :
    (llm_generate_stream be st prompt 0).st.recent = st.recent ∧
    (generate_internal be st prompt 0).st.recent = st.recent := by
  constructor
  · by_cases h1 : st.loaded = true
    · by_cases h2 : be.ctx_ok = true
      · by_cases h3 : be.tokenize prompt = []
        · simp [llm_generate_stream, h1, h2, h3]
        · by_cases h4 : decodeChunksOk be st.cfg.batch_size
              (if be.add_bos then be.bos :: be.tokenize prompt
                else be.tokenize prompt) = true
          · simp [llm_generate_stream, h1, h2, h3, h4, genLoop]
          · simp [llm_generate_stream, h1, h2, h3, h4]
      · simp [llm_generate_stream, h1, h2]
    · simp [llm_generate_stream, h1]
  · by_cases h1 : st.loaded = true
    · by_cases h2 : be.ctx_ok = true
      · by_cases h3 : be.tokenize prompt = []
        · simp [generate_internal, h1, h2, h3]
        · by_cases h4 : decodeChunksOk be st.cfg.batch_size
              (if be.add_bos then be.bos :: be.tokenize prompt
                else be.tokenize prompt) = true
          · simp [generate_internal, h1, h2, h3, h4, internalLoop]
          · simp [generate_internal, h1, h2, h3, h4]
      · simp [generate_internal, h1, h2]
    · simp [generate_internal, h1]

/-! C9. -/

/-- C9: generating (synchronously or streaming) on an engine whose model was
never loaded returns/emits the "Error: Model not loaded" result instead of
throwing (the embedded functions have no exception path on these branches),
and `initialize` on a path the backend cannot load returns `false` without
throwing, leaving the engine not ready and still producing the not-loaded
error from both generation entry points. -/
theorem c9_not_loaded_and_failed_init (be : Backend) (e : EngineSt)
    (cfg : ModelConfig) (prompt : String) (maxT sIdx : ℕ)
    (hl : be.load_ok cfg.model_path = false) :
    (engineInit be e cfg).2 = false ∧
    engineIsReady (engineInit be e cfg).1 = false ∧
    (engine_generate_text be (engineInit be e cfg).1 prompt maxT).1
      = "Error: Model not loaded" ∧
    engine_stream_delivered be (engineInit be e cfg).1 prompt maxT sIdx
      = [.err "Error: Model not loaded"] ∧
    (engine_generate_text be ⟨none⟩ prompt maxT).1 = "Error: Model not loaded" ∧
    engine_stream_delivered be ⟨none⟩ prompt maxT sIdx
      = [.err "Error: Model not loaded"] := by
  refine ⟨?_, ?_, ?_, ?_, ?_, ?_⟩ <;>
    simp [engineInit, modelInit, hl, engineIsReady, engine_generate_text,
      engine_stream_delivered]

/-- Backend that fails to load every model path. -/
def beNoLoad : Backend := { qBackend with load_ok := fun _ => false }

/-- Witness for C9 with a concrete failing loader. -/
theorem c9_witness :
    beNoLoad.load_ok cfgT0.model_path = false ∧
    (engineInit beNoLoad ⟨none⟩ cfgT0).2 = false ∧
    engineIsReady (engineInit beNoLoad ⟨none⟩ cfgT0).1 = false := by
  have h := c9_not_loaded_and_failed_init beNoLoad ⟨none⟩ cfgT0 "p" 1 0 rfl
  exact ⟨rfl, h.1, h.2.1⟩

/-! C4 infrastructure. -/

theorem actsOk_start (c : WorkerCount) (l : List WorkAct)
    (h : actsOk c l = true) : c.genW ≤ 1 ∧ c.bindW ≤ 1 := by
  cases l with
  | nil => simpa [actsOk] using h
  | cons a l =>
    simp only [actsOk, Bool.and_eq_true, decide_eq_true_eq] at h
    exact h.1

theorem actsOk_append (l1 : List WorkAct) :
    ∀ (c : WorkerCount) (l2 : List WorkAct),
      actsOk c (l1 ++ l2) = (actsOk c l1 && actsOk (runActs c l1) l2) := by
  induction l1 with
  | nil =>
    intro c l2
    cases l2 <;> simp [actsOk, runActs, ← Bool.and_assoc, Bool.and_self]
  | cons a l ih =>
    intro c l2
    simp [actsOk, runActs, ih, Bool.and_assoc, List.foldl_cons]

theorem actsOk_split (c : WorkerCount) (l : List WorkAct)
    (h : actsOk c l = true) (p q : List WorkAct) (hpq : l = p ++ q) :
    (runActs c p).genW ≤ 1 ∧ (runActs c p).bindW ≤ 1 := by
  subst hpq
  rw [actsOk_append] at h
  exact actsOk_start _ _ ((Bool.and_eq_true _ _).mp h).2

theorem engineTrace_ok : ∀ n : ℕ,
    actsOk ⟨0, 0⟩ (engineTrace n) = true ∧ actsOk ⟨1, 1⟩ (engineTrace n) = true := by
  intro n
  induction n with
  | zero => exact ⟨rfl, rfl⟩
  | succ n ih =>
    have h00 : actsOk ⟨0, 0⟩ streamCallActs = true := rfl
    have h11 : actsOk ⟨1, 1⟩ streamCallActs = true := rfl
    have r00 : runActs ⟨0, 0⟩ streamCallActs = ⟨1, 1⟩ := rfl
    have r11 : runActs ⟨1, 1⟩ streamCallActs = ⟨1, 1⟩ := rfl
    constructor
    · rw [engineTrace, actsOk_append, h00, r00, ih.2]
      rfl
    · rw [engineTrace, actsOk_append, h11, r11, ih.2]
      rfl

/-! C4. -/

/-- C4: across any number of serialized stream requests, at every point of
the combined action trace at most one generation worker and at most one
binding worker are alive (each request joins the previous worker before
spawning its replacement), and within one request the actions occur in the
claimed order: cancellation is requested first (index 0), the previous
binding worker is joined, the previous delivery channel is released, only
then is a fresh channel created, and only after that are the new binding
worker and (after joining the previous generation worker) the new
generation worker spawned. -/
theorem c4_single_flight_worker_discipline (n : ℕ) (p q : List WorkAct)
    (h : engineTrace n = p ++ q) :
    ((runActs ⟨0, 0⟩ p).genW ≤ 1 ∧ (runActs ⟨0, 0⟩ p).bindW ≤ 1) ∧
    (streamCallActs.indexOf .setCancel = 0 ∧
     streamCallActs.indexOf .joinBindWorker < streamCallActs.indexOf .releaseChannel ∧
     streamCallActs.indexOf .releaseChannel < streamCallActs.indexOf .createChannel ∧
     streamCallActs.indexOf .createChannel < streamCallActs.indexOf .spawnBindWorker ∧
     streamCallActs.indexOf .spawnBindWorker < streamCallActs.indexOf .spawnGenWorker ∧
     streamCallActs.indexOf .joinGenWorker < streamCallActs.indexOf .spawnGenWorker) :=
  ⟨actsOk_split _ _ (engineTrace_ok n).1 p q h, by decide⟩

/-- Witness for C4 at two successive stream requests, taking the whole trace
as the prefix. -/
theorem c4_witness :
    (engineTrace 2 = engineTrace 2 ++ []) ∧
    (runActs ⟨0, 0⟩ (engineTrace 2)).genW ≤ 1 := by
  exact ⟨by simp,
    ((c4_single_flight_worker_discipline 2 (engineTrace 2) [] (by simp)).1).1⟩

end LocalLLM
